import Mathlib

/-!
# Application keys of `engine/api/application_key.go`

A shallow embedding of the three handlers of the file
(`getKeysInApplicationHandler`, `deleteKeyInApplicationHandler`,
`addKeyInApplicationHandler`) and the properties of their control flow.

The handlers talk to collaborators that live in other packages
(`application`, `keys`, `event`, the database handle, `sdk`).  Each fallible
collaborator call is a field of `Collab`: a function of the world state `σ`
that returns its outcome and the next world state, so that an outcome may
depend on everything that happened before.  A handler returns what it hands
to the caller together with the chronological list of the collaborator calls
it made (`Action`).  `service.WriteJSON (w, v, 200)` is the value `.ok v`.
-/

namespace Cds

/-! ## Data model -/

/-- The identity of an error value, kept through `sdk.WrapError` and
`sdk.WithStack`.  The four named constants are the `sdk.Err...` values the
handlers return themselves; `External` is any other error value. -/
inductive ErrorKind where
  | ErrForbidden
  | ErrInvalidKeyPattern
  | ErrUnknownKeyType
  | ErrKeyNotFound
  | External (code : Nat)
  deriving DecidableEq, Repr

/-- An error value: its identity and the messages wrapped around it,
outermost first. -/
structure Error where
  kind : ErrorKind
  context : List String
  deriving DecidableEq, Repr

/-- The `sdk.ErrForbidden` value. -/
def ErrForbidden : Error := ⟨.ErrForbidden, []⟩

/-- The `sdk.ErrInvalidKeyPattern` value. -/
def ErrInvalidKeyPattern : Error := ⟨.ErrInvalidKeyPattern, []⟩

/-- The `sdk.ErrUnknownKeyType` value. -/
def ErrUnknownKeyType : Error := ⟨.ErrUnknownKeyType, []⟩

/-- The `sdk.ErrKeyNotFound` value. -/
def ErrKeyNotFound : Error := ⟨.ErrKeyNotFound, []⟩

/-- The call `sdk.WrapError (err, msg)`: same error, one more message. -/
def WrapError (err : Error) (msg : String) : Error :=
  { err with context := msg :: err.context }

/-- The call `sdk.WithStack (err)`: same error (the stack trace is not
modelled). -/
def WithStack (err : Error) : Error := err

/-- The fields of `sdk.Key` the handler reads from a generator's result. -/
structure Key where
  Public : String
  Private : String
  KeyID : String
  deriving DecidableEq, Repr

/-- The fields of `sdk.ApplicationKey` the handlers read or write (`Type_` is
the field `Type`). -/
structure ApplicationKey where
  Name : String
  Public : String
  Private : String
  KeyID : String
  Type_ : String
  ApplicationID : Int
  deriving DecidableEq, Repr

/-- The zero value of `sdk.ApplicationKey` (`var keyToDelete sdk.ApplicationKey`). -/
def ApplicationKey.zero : ApplicationKey :=
  { Name := "", Public := "", Private := "", KeyID := "", Type_ := "", ApplicationID := 0 }

/-- The fields of `sdk.Application` the handlers read. -/
structure Application where
  ID : Int
  Name : String
  FromRepository : String
  Keys : List ApplicationKey
  deriving DecidableEq, Repr

/-- Modelled from the spec: the constant `sdk.KeyTypeSSH`, declared in package
`sdk`; the spec's scenario writes the SSH type as `"ssh"`. -/
def KeyTypeSSH : String := "ssh"

/-- Modelled from the spec: the constant `sdk.KeyTypePGP`, declared in package
`sdk`; the second member of the closed set of key types. -/
def KeyTypePGP : String := "pgp"

/-- One collaborator call made by a handler.  `Begin` and `Commit` carry
whether the call succeeded. -/
inductive Action where
  | Load (projectKey appName : String) (withKeys : Bool)
  | GenerateSSHKey (name : String)
  | GeneratePGPKeyPair (name : String)
  | Begin (ok : Bool)
  | InsertKey (key : ApplicationKey)
  | DeleteKey (appID : Int) (name : String)
  | Commit (ok : Bool)
  | Rollback
  | PublishApplicationKeyAdd (projectKey : String) (app : Application)
      (key : ApplicationKey) (consumer : String)
  | PublishApplicationKeyDelete (projectKey : String) (app : Application)
      (key : ApplicationKey) (consumer : String)
  deriving DecidableEq, Repr

/-- The collaborators of the handlers, over a world state `σ`.
`MatchString` is `sdk.NamePatternRegex.MatchString` and `NamePattern` the
constant `sdk.NamePattern`, both declared in package `sdk`.  `InsertKey`
receives a pointer to the key: on success it returns the key as the call
leaves it in the handler's variable. -/
structure Collab (σ : Type) where
  MatchString : String → Bool
  NamePattern : String
  LoadByProjectKeyAndName : String → String → Bool → σ → Except Error Application × σ
  GenerateSSHKey : String → σ → Except Error Key × σ
  GeneratePGPKeyPair : String → σ → Except Error Key × σ
  Begin : σ → Option Error × σ
  InsertKey : ApplicationKey → σ → Except Error ApplicationKey × σ
  DeleteKey : Int → String → σ → Option Error × σ
  Commit : σ → Option Error × σ

/-! ## The handlers -/

/-- The call `strings.HasPrefix (s, pre)`: `s` starts with `pre`.  Go compares
bytes; on well-formed UTF-8 text that is the comparison of the characters. -/
def HasPrefix (s pre : String) : Bool :=
  pre.data.isPrefixOf s.data

/-- Lines 103-105 of `addKeyInApplicationHandler`: the key name with `"app-"`
in front unless it is there already. -/
def prefixedName (name : String) : String :=
  if !HasPrefix name "app-" then "app-" ++ name else name

/-- The handler `getKeysInApplicationHandler`. -/
def getKeysInApplicationHandler {σ : Type} (c : Collab σ)
    (projectKey appName : String) (s : σ) :
    Except Error (List ApplicationKey) × List Action :=
  match c.LoadByProjectKeyAndName projectKey appName true s with
  | (.error err, _) => (.error err, [.Load projectKey appName true])
  | (.ok app, _) => (.ok app.Keys, [.Load projectKey appName true])

/-- Lines 54-61 of `deleteKeyInApplicationHandler`: the loop over `app.Keys`.
`keyToDelete` is the variable of that name, `tr` the calls made so far. -/
def deleteKeyLoop {σ : Type} (c : Collab σ) (appID : Int) (keyName : String) :
    List ApplicationKey → ApplicationKey → σ → List Action →
    Except Error ApplicationKey × σ × List Action
  | [], keyToDelete, s, tr => (.ok keyToDelete, s, tr)
  | k :: ks, keyToDelete, s, tr =>
    if k.Name == keyName then
      match c.DeleteKey appID keyName s with
      | (some err, s1) =>
        (.error (WrapError err ("cannot delete key " ++ k.Name)), s1,
          tr ++ [.DeleteKey appID keyName])
      | (none, s1) => deleteKeyLoop c appID keyName ks k s1 (tr ++ [.DeleteKey appID keyName])
    else deleteKeyLoop c appID keyName ks keyToDelete s tr

/-- The handler `deleteKeyInApplicationHandler`.  The deferred `tx.Rollback ()`
is the last call of every path that opened the transaction. -/
def deleteKeyInApplicationHandler {σ : Type} (c : Collab σ)
    (projectKey appName keyName consumer : String) (s : σ) :
    Except Error Unit × List Action :=
  match c.LoadByProjectKeyAndName projectKey appName true s with
  | (.error err, _) => (.error err, [.Load projectKey appName true])
  | (.ok app, s1) =>
    if app.FromRepository != "" then
      (.error (WithStack ErrForbidden), [.Load projectKey appName true])
    else
      match c.Begin s1 with
      | (some err, _) =>
        (.error (WrapError err "cannot start transaction"),
          [.Load projectKey appName true, .Begin false])
      | (none, s2) =>
        match deleteKeyLoop c app.ID keyName app.Keys ApplicationKey.zero s2
            [.Load projectKey appName true, .Begin true] with
        | (.error err, _, tr) => (.error err, tr ++ [.Rollback])
        | (.ok keyToDelete, s3, tr) =>
          if keyToDelete.Name == "" then
            (.error (WrapError ErrKeyNotFound
                ("deleteKeyInApplicationHandler> key " ++ keyName ++
                  " not found on application " ++ app.Name)),
              tr ++ [.Rollback])
          else
            match c.Commit s3 with
            | (some err, _) => (.error (WithStack err), tr ++ [.Commit false, .Rollback])
            | (none, _) =>
              (.ok (), tr ++ [.Commit true,
                .PublishApplicationKeyDelete projectKey app keyToDelete consumer, .Rollback])

/-- Lines 127-143 of `addKeyInApplicationHandler`: the transaction around the
insert of the generated key.  `tr` is the calls made so far. -/
def insertInTransaction {σ : Type} (c : Collab σ) (projectKey consumer : String)
    (app : Application) (newKey : ApplicationKey) (s : σ) (tr : List Action) :
    Except Error ApplicationKey × List Action :=
  match c.Begin s with
  | (some errT, _) =>
    (.error (WrapError errT "addKeyInApplicationHandler> Cannot start transaction"),
      tr ++ [.Begin false])
  | (none, s1) =>
    match c.InsertKey newKey s1 with
    | (.error err, _) =>
      (.error (WrapError err "Cannot insert application key"),
        tr ++ [.Begin true, .InsertKey newKey, .Rollback])
    | (.ok newKey1, s2) =>
      match c.Commit s2 with
      | (some err, _) =>
        (.error (WithStack err),
          tr ++ [.Begin true, .InsertKey newKey, .Commit false, .Rollback])
      | (none, _) =>
        (.ok newKey1,
          tr ++ [.Begin true, .InsertKey newKey, .Commit true,
            .PublishApplicationKeyAdd projectKey app newKey1 consumer, .Rollback])

/-- The handler `addKeyInApplicationHandler`.  `body` is the outcome of
`service.UnmarshalBody (r, &newKey)`. -/
def addKeyInApplicationHandler {σ : Type} (c : Collab σ)
    (projectKey appName consumer : String) (body : Except Error ApplicationKey) (s : σ) :
    Except Error ApplicationKey × List Action :=
  match body with
  | .error err => (.error err, [])
  | .ok newKey =>
    if !c.MatchString newKey.Name then
      (.error (WrapError ErrInvalidKeyPattern
          ("addKeyInApplicationHandler: Key name " ++ newKey.Name ++
            " do not respect pattern " ++ c.NamePattern)), [])
    else
      match c.LoadByProjectKeyAndName projectKey appName false s with
      | (.error err, _) => (.error err, [.Load projectKey appName false])
      | (.ok app, s1) =>
        let newKey := { newKey with ApplicationID := app.ID }
        if app.FromRepository != "" then
          (.error (WithStack ErrForbidden), [.Load projectKey appName false])
        else
          let newKey := { newKey with Name := prefixedName newKey.Name }
          if newKey.Type_ = KeyTypeSSH then
            match c.GenerateSSHKey newKey.Name s1 with
            | (.error errK, _) =>
              (.error (WrapError errK "addKeyInApplicationHandler> Cannot generate ssh key"),
                [.Load projectKey appName false, .GenerateSSHKey newKey.Name])
            | (.ok k, s2) =>
              let newKey := { newKey with Public := k.Public, Private := k.Private }
              insertInTransaction c projectKey consumer app newKey s2
                [.Load projectKey appName false, .GenerateSSHKey newKey.Name]
          else if newKey.Type_ = KeyTypePGP then
            match c.GeneratePGPKeyPair newKey.Name s1 with
            | (.error errGenerate, _) =>
              (.error (WrapError errGenerate "addKeyInApplicationHandler> Cannot generate pgpKey"),
                [.Load projectKey appName false, .GeneratePGPKeyPair newKey.Name])
            | (.ok k, s2) =>
              let newKey :=
                { newKey with Public := k.Public, Private := k.Private, KeyID := k.KeyID }
              insertInTransaction c projectKey consumer app newKey s2
                [.Load projectKey appName false, .GeneratePGPKeyPair newKey.Name]
          else
            (.error (WrapError ErrUnknownKeyType
                ("addKeyInApplicationHandler> unknown key of type: " ++ newKey.Type_)),
              [.Load projectKey appName false])

/-! ## Reference functions used to state what the handlers do -/

/-- The entries of a key collection whose name is `keyName`, in order. -/
def matching (keyName : String) (keys : List ApplicationKey) : List ApplicationKey :=
  keys.filter (fun k => k.Name == keyName)

/-- The outcome of up to `n` successive `application.DeleteKey (tx, appID, keyName)`
calls from world state `s`, stopping at the first failure: the error of the
failing call if any, the world state after the last call made, and the number
of calls made. -/
def deleteCalls {σ : Type} (c : Collab σ) (appID : Int) (keyName : String) :
    Nat → σ → Option Error × σ × Nat
  | 0, s => (none, s, 0)
  | n + 1, s =>
    match c.DeleteKey appID keyName s with
    | (some err, s1) => (some err, s1, 1)
    | (none, s1) =>
      let r := deleteCalls c appID keyName n s1
      (r.1, r.2.1, r.2.2 + 1)

/-- A publication of a lifecycle event. -/
def Action.isPublish : Action → Bool
  | .PublishApplicationKeyAdd _ _ _ _ => true
  | .PublishApplicationKeyDelete _ _ _ _ => true
  | _ => false

/-- A storage mutation: an insert or a delete by name. -/
def Action.isMutation : Action → Bool
  | .InsertKey _ => true
  | .DeleteKey _ _ => true
  | _ => false

/-- Every publication in the trace comes after a successful commit;
`committed` says whether one was seen already. -/
def publishAfterCommit (committed : Bool) : List Action → Bool
  | [] => true
  | .Commit true :: tr => publishAfterCommit true tr
  | a :: tr => (!a.isPublish || committed) && publishAfterCommit committed tr

/-- Every storage mutation in the trace is issued while a transaction is open:
after a successful `Begin` and before any `Commit` or `Rollback` that follows
it; `opened` says whether a transaction is open at the start. -/
def mutationInTransaction (opened : Bool) : List Action → Bool
  | [] => true
  | .Begin ok :: tr => mutationInTransaction ok tr
  | .Commit _ :: tr => mutationInTransaction false tr
  | .Rollback :: tr => mutationInTransaction false tr
  | a :: tr => (!a.isMutation || opened) && mutationInTransaction opened tr

/-- A trace that opened a transaction and has no successful commit ends with
the rollback. -/
def rollbackUnlessCommitted (tr : List Action) : Bool :=
  !(tr.contains (.Begin true)) || tr.contains (.Commit true) ||
    tr.getLast? == some .Rollback

/-- Modelled from the spec: the match of `sdk.NamePatternRegex`, declared in
package `sdk`: a non-empty name of alphanumeric characters and the limited
punctuation `.`, `_`, `-`. -/
def NamePatternRegex (name : String) : Bool :=
  !name.data.isEmpty &&
    name.data.all (fun ch => ch.isAlphanum || ch == '.' || ch == '_' || ch == '-')

/-- A world in which the application `app` is the one loaded, both generators
return fixed material and every storage call succeeds; `InsertKey` hands the
key back as it received it. -/
def simpleWorld (app : Application) : Collab Unit where
  MatchString := NamePatternRegex
  NamePattern := "^[a-zA-Z0-9._-]+$"
  LoadByProjectKeyAndName := fun _ _ _ s => (.ok app, s)
  GenerateSSHKey := fun _ s => (.ok ⟨"ssh-pub", "ssh-priv", ""⟩, s)
  GeneratePGPKeyPair := fun _ s => (.ok ⟨"pgp-pub", "pgp-priv", "pgp-id"⟩, s)
  Begin := fun s => (none, s)
  InsertKey := fun k s => (.ok k, s)
  DeleteKey := fun _ _ s => (none, s)
  Commit := fun s => (none, s)

/-- A world whose state is the list of rows inserted so far: `InsertKey`
appends the key to the rows and hands it back as it received it; the
application `app` is the one loaded and every other call succeeds. -/
def recordingWorld (app : Application) : Collab (List ApplicationKey) where
  MatchString := NamePatternRegex
  NamePattern := "^[a-zA-Z0-9._-]+$"
  LoadByProjectKeyAndName := fun _ _ _ rows => (.ok app, rows)
  GenerateSSHKey := fun _ rows => (.ok ⟨"ssh-pub", "ssh-priv", ""⟩, rows)
  GeneratePGPKeyPair := fun _ rows => (.ok ⟨"pgp-pub", "pgp-priv", "pgp-id"⟩, rows)
  Begin := fun rows => (none, rows)
  InsertKey := fun k rows => (.ok k, rows ++ [k])
  DeleteKey := fun _ name rows => (none, rows.filter (fun k => k.Name != name))
  Commit := fun rows => (none, rows)

/-- A storage fault. -/
def storageFault : Error := ⟨.External 1, []⟩

/-- The world `simpleWorld app` with a failing `application.DeleteKey`. -/
def failingDeleteWorld (app : Application) : Collab Unit :=
  { simpleWorld app with DeleteKey := fun _ _ s => (some storageFault, s) }

/-- An application that is not linked to a repository. -/
def localApp (keys : List ApplicationKey) : Application :=
  { ID := 7, Name := "myapp", FromRepository := "", Keys := keys }

/-- An application linked to a repository. -/
def linkedApp (keys : List ApplicationKey) : Application :=
  { ID := 7, Name := "myapp", FromRepository := "git@example.org:r.git", Keys := keys }

/-- A stored SSH key named `name` with public part `pub`. -/
def sshKey (name pub : String) : ApplicationKey :=
  { Name := name, Public := pub, Private := "priv", KeyID := "", Type_ := KeyTypeSSH,
    ApplicationID := 7 }

/-- A request body: a name and a type, every other field empty. -/
def request (name type : String) : ApplicationKey :=
  { Name := name, Public := "", Private := "", KeyID := "", Type_ := type, ApplicationID := 0 }

/-- A request body for an SSH key named `deploy` that also carries a `key_id`. -/
def sshRequestWithKeyID : ApplicationKey :=
  { Name := "deploy", Public := "", Private := "", KeyID := "caller-id", Type_ := KeyTypeSSH,
    ApplicationID := 0 }

/-- An application, not linked to a repository, with two keys named `app-a`. -/
def duplicateApp : Application :=
  localApp [sshKey "app-a" "first", sshKey "app-a" "second"]

/-- An application, not linked to a repository, with three keys named `app-b`
and one other key. -/
def triplicateApp : Application :=
  localApp [sshKey "app-b" "one", sshKey "app-c" "other", sshKey "app-b" "two",
    sshKey "app-b" "three"]

/-- The key that an add of the SSH key `deploy` produces in `simpleWorld` on an
application of identifier 7. -/
def deployKey : ApplicationKey :=
  { Name := "app-deploy", Public := "ssh-pub", Private := "ssh-priv", KeyID := "",
    Type_ := KeyTypeSSH, ApplicationID := 7 }

/-- The outcome is a failure whose error is of kind `kind`. -/
def failsWith {α : Type} (r : Except Error α) (kind : ErrorKind) : Bool :=
  match r with
  | .error err => err.kind == kind
  | .ok _ => false

/-! ## Lemmas -/

theorem hasPrefix_append (pre s : String) : HasPrefix (pre ++ s) pre = true := by
  simp [HasPrefix, String.data_append, List.isPrefixOf_iff_prefix]

theorem append_ne_self (s : String) : "app-" ++ s ≠ s := by
  intro h
  have h1 := congrArg String.length h
  simp [String.length_append] at h1
  have h2 : "app-".length = 4 := by decide
  omega

theorem prefixedName_eq (name : String) :
    prefixedName name = if HasPrefix name "app-" then name else "app-" ++ name := by
  unfold prefixedName
  cases HasPrefix name "app-" <;> simp

theorem hasPrefix_prefixedName (name : String) : HasPrefix (prefixedName name) "app-" = true := by
  rw [prefixedName_eq]
  cases h : HasPrefix name "app-"
  · simp [hasPrefix_append]
  · simp [h]

theorem matching_cons (keyName : String) (k : ApplicationKey) (ks : List ApplicationKey) :
    matching keyName (k :: ks) =
      if k.Name = keyName then k :: matching keyName ks else matching keyName ks := by
  simp [matching, List.filter_cons]

/-- The loop in closed form: it makes one `DeleteKey` call per matching entry
until a call fails, and leaves the last matching entry in `keyToDelete`. -/
theorem deleteKeyLoop_eq {σ : Type} (c : Collab σ) (appID : Int) (keyName : String)
    (keys : List ApplicationKey) (keyToDelete : ApplicationKey) (s : σ) (tr : List Action) :
    deleteKeyLoop c appID keyName keys keyToDelete s tr =
      ((match (deleteCalls c appID keyName (matching keyName keys).length s).1 with
        | some err => .error (WrapError err ("cannot delete key " ++ keyName))
        | none => .ok ((matching keyName keys).getLast?.getD keyToDelete)),
       (deleteCalls c appID keyName (matching keyName keys).length s).2.1,
       tr ++ List.replicate (deleteCalls c appID keyName (matching keyName keys).length s).2.2
         (.DeleteKey appID keyName)) := by
  induction keys generalizing keyToDelete s tr with
  | nil => simp [deleteKeyLoop, matching, deleteCalls]
  | cons k ks ih =>
    rw [matching_cons]
    by_cases hk : k.Name = keyName
    · simp only [deleteKeyLoop, hk, beq_self_eq_true, if_true, List.length_cons, deleteCalls]
      rcases hd : c.DeleteKey appID keyName s with ⟨_ | err, s1⟩
      · simp only [ih, List.getLast?_cons, Option.getD_some, List.replicate_succ,
          List.append_assoc, List.singleton_append]
      · simp
    · simp [deleteKeyLoop, hk, ih]

theorem deleteCalls_count {σ : Type} (c : Collab σ) (appID : Int) (keyName : String)
    (n : Nat) (s : σ) (h : (deleteCalls c appID keyName n s).1 = none) :
    (deleteCalls c appID keyName n s).2.2 = n := by
  induction n generalizing s with
  | zero => simp [deleteCalls]
  | succ n ih =>
    simp only [deleteCalls] at h ⊢
    rcases hd : c.DeleteKey appID keyName s with ⟨_ | err, s1⟩
    · simp only [hd] at h ⊢
      simp [ih s1 h]
    · simp [hd] at h

theorem matching_getLast {keyName : String} {keys : List ApplicationKey} {K : ApplicationKey}
    (h : (matching keyName keys).getLast? = some K) : K ∈ keys ∧ K.Name = keyName := by
  have hm : K ∈ matching keyName keys := List.mem_of_mem_getLast? h
  simpa [matching] using hm

theorem matching_getLast_of_mem {keyName : String} {keys : List ApplicationKey}
    (h : ∃ k ∈ keys, k.Name = keyName) :
    ∃ K, (matching keyName keys).getLast? = some K := by
  rcases h with ⟨k, hk, hn⟩
  have hm : k ∈ matching keyName keys := by simp [matching, hk, hn]
  cases hl : (matching keyName keys).getLast? with
  | none =>
    rw [List.getLast?_eq_none_iff] at hl
    simp [hl] at hm
  | some K => exact ⟨K, rfl⟩

/-- The delete handler in closed form, once the application is loaded, is not
linked to a repository and the transaction is open. -/
theorem deleteKeyInApplicationHandler_eq {σ : Type} (c : Collab σ)
    (projectKey appName keyName consumer : String) (s s1 s2 : σ) (app : Application)
    (hload : c.LoadByProjectKeyAndName projectKey appName true s = (.ok app, s1))
    (hrepo : app.FromRepository = "")
    (hbegin : c.Begin s1 = (none, s2)) :
    deleteKeyInApplicationHandler c projectKey appName keyName consumer s =
      (match (deleteCalls c app.ID keyName (matching keyName app.Keys).length s2).1 with
        | some err =>
          (.error (WrapError err ("cannot delete key " ++ keyName)),
            [.Load projectKey appName true, .Begin true] ++
              List.replicate (deleteCalls c app.ID keyName (matching keyName app.Keys).length s2).2.2
                (.DeleteKey app.ID keyName) ++ [.Rollback])
        | none =>
          if ((matching keyName app.Keys).getLast?.getD ApplicationKey.zero).Name = "" then
            (.error (WrapError ErrKeyNotFound
                ("deleteKeyInApplicationHandler> key " ++ keyName ++
                  " not found on application " ++ app.Name)),
              [.Load projectKey appName true, .Begin true] ++
                List.replicate (matching keyName app.Keys).length (.DeleteKey app.ID keyName) ++
                [.Rollback])
          else
            match (c.Commit
                (deleteCalls c app.ID keyName (matching keyName app.Keys).length s2).2.1).1 with
            | some err =>
              (.error (WithStack err),
                [.Load projectKey appName true, .Begin true] ++
                  List.replicate (matching keyName app.Keys).length (.DeleteKey app.ID keyName) ++
                  [.Commit false, .Rollback])
            | none =>
              (.ok (),
                [.Load projectKey appName true, .Begin true] ++
                  List.replicate (matching keyName app.Keys).length (.DeleteKey app.ID keyName) ++
                  [.Commit true,
                    .PublishApplicationKeyDelete projectKey app
                      ((matching keyName app.Keys).getLast?.getD ApplicationKey.zero) consumer,
                    .Rollback])) := by
  simp only [deleteKeyInApplicationHandler, hload, hrepo, hbegin, deleteKeyLoop_eq]
  rcases hd : (deleteCalls c app.ID keyName (matching keyName app.Keys).length s2).1 with _ | err
  · have hn := deleteCalls_count c app.ID keyName _ s2 hd
    by_cases hz : ((matching keyName app.Keys).getLast?.getD ApplicationKey.zero).Name = ""
    · simp [hz, hn]
    · rcases hc : c.Commit
          (deleteCalls c app.ID keyName (matching keyName app.Keys).length s2).2.1 with
        ⟨_ | err, s4⟩ <;> simp [hz, hn, hc]
  · simp

theorem publishAfterCommit_deletes (b : Bool) (n : Nat) (appID : Int) (keyName : String)
    (tr : List Action) :
    publishAfterCommit b (List.replicate n (.DeleteKey appID keyName) ++ tr) =
      publishAfterCommit b tr := by
  induction n with
  | zero => simp
  | succ n ih => simp [List.replicate_succ, publishAfterCommit, Action.isPublish, ih]

theorem mutationInTransaction_deletes (n : Nat) (appID : Int) (keyName : String)
    (tr : List Action) :
    mutationInTransaction true (List.replicate n (.DeleteKey appID keyName) ++ tr) =
      mutationInTransaction true tr := by
  induction n with
  | zero => simp
  | succ n ih => simp [List.replicate_succ, mutationInTransaction, ih]

theorem getLast_cons_append (a b : Action) (l r : List Action) :
    (a :: (l ++ b :: r)).getLast? = (b :: r).getLast? := by
  rw [← List.cons_append, List.getLast?_append, List.getLast?_cons]
  simp

/-- The three trace properties on every run of the delete handler. -/
theorem deleteKey_trace_discipline {σ : Type} (c : Collab σ)
    (projectKey appName keyName consumer : String) (s : σ) :
    publishAfterCommit false
        (deleteKeyInApplicationHandler c projectKey appName keyName consumer s).2 = true ∧
      mutationInTransaction false
        (deleteKeyInApplicationHandler c projectKey appName keyName consumer s).2 = true ∧
      rollbackUnlessCommitted
        (deleteKeyInApplicationHandler c projectKey appName keyName consumer s).2 = true := by
  rcases hl : c.LoadByProjectKeyAndName projectKey appName true s with ⟨err | app, s1⟩
  · simp [deleteKeyInApplicationHandler, hl, publishAfterCommit, mutationInTransaction,
      rollbackUnlessCommitted, Action.isPublish, Action.isMutation]
  · by_cases hrepo : app.FromRepository = ""
    · rcases hb : c.Begin s1 with ⟨_ | err, s2⟩
      · rw [deleteKeyInApplicationHandler_eq c projectKey appName keyName consumer s s1 s2 app
          hl hrepo hb]
        rcases (deleteCalls c app.ID keyName (matching keyName app.Keys).length s2).1 with _ | err
        · by_cases hz : ((matching keyName app.Keys).getLast?.getD ApplicationKey.zero).Name = ""
          · simp [hz, publishAfterCommit, mutationInTransaction, rollbackUnlessCommitted,
              Action.isPublish, Action.isMutation, publishAfterCommit_deletes,
              mutationInTransaction_deletes, getLast_cons_append]
          · rcases (c.Commit
                (deleteCalls c app.ID keyName (matching keyName app.Keys).length s2).2.1).1 with
              _ | err <;>
            simp [hz, publishAfterCommit, mutationInTransaction, rollbackUnlessCommitted,
              Action.isPublish, Action.isMutation, publishAfterCommit_deletes,
              mutationInTransaction_deletes, getLast_cons_append]
        · simp [publishAfterCommit, mutationInTransaction, rollbackUnlessCommitted,
            Action.isPublish, Action.isMutation, publishAfterCommit_deletes,
            mutationInTransaction_deletes, getLast_cons_append]
      · simp [deleteKeyInApplicationHandler, hl, hrepo, hb, publishAfterCommit,
          mutationInTransaction, rollbackUnlessCommitted, Action.isPublish, Action.isMutation]
    · simp [deleteKeyInApplicationHandler, hl, hrepo, publishAfterCommit, mutationInTransaction,
        rollbackUnlessCommitted, Action.isPublish, Action.isMutation]

/-- The three trace properties of the transaction around the insert, after
the load and one generator call. -/
theorem insertInTransaction_discipline {σ : Type} (c : Collab σ)
    (projectKey appName consumer name : String) (app : Application) (newKey : ApplicationKey)
    (s : σ) (g : Action) (hg : g = .GenerateSSHKey name ∨ g = .GeneratePGPKeyPair name) :
    publishAfterCommit false
        (insertInTransaction c projectKey consumer app newKey s
          [.Load projectKey appName false, g]).2 = true ∧
      mutationInTransaction false
        (insertInTransaction c projectKey consumer app newKey s
          [.Load projectKey appName false, g]).2 = true ∧
      rollbackUnlessCommitted
        (insertInTransaction c projectKey consumer app newKey s
          [.Load projectKey appName false, g]).2 = true := by
  unfold insertInTransaction
  rcases hb : c.Begin s with ⟨_ | err, s1⟩
  · rcases hi : c.InsertKey newKey s1 with ⟨err | key1, s2⟩
    · rcases hg with rfl | rfl <;>
        simp [hi, publishAfterCommit, mutationInTransaction, rollbackUnlessCommitted,
          Action.isPublish, Action.isMutation]
    · rcases hc : c.Commit s2 with ⟨_ | err, s3⟩ <;> rcases hg with rfl | rfl <;>
        simp [hi, hc, publishAfterCommit, mutationInTransaction, rollbackUnlessCommitted,
          Action.isPublish, Action.isMutation]
  · rcases hg with rfl | rfl <;>
      simp [publishAfterCommit, mutationInTransaction, rollbackUnlessCommitted,
        Action.isPublish, Action.isMutation]

theorem keyTypePGP_ne_SSH : KeyTypePGP ≠ KeyTypeSSH := by decide

/-- The add handler on an SSH request, once the name is accepted and the
application is loaded and not linked to a repository. -/
theorem addKey_ssh {σ : Type} (c : Collab σ) (projectKey appName consumer : String)
    (newKey : ApplicationKey) (s s1 : σ) (app : Application)
    (hm : c.MatchString newKey.Name = true)
    (hl : c.LoadByProjectKeyAndName projectKey appName false s = (.ok app, s1))
    (hrepo : app.FromRepository = "")
    (hssh : newKey.Type_ = KeyTypeSSH) :
    addKeyInApplicationHandler c projectKey appName consumer (.ok newKey) s =
      match c.GenerateSSHKey (prefixedName newKey.Name) s1 with
      | (.error errK, _) =>
        (.error (WrapError errK "addKeyInApplicationHandler> Cannot generate ssh key"),
          [.Load projectKey appName false, .GenerateSSHKey (prefixedName newKey.Name)])
      | (.ok k, s2) =>
        insertInTransaction c projectKey consumer app
          { Name := prefixedName newKey.Name, Public := k.Public, Private := k.Private,
            KeyID := newKey.KeyID, Type_ := newKey.Type_, ApplicationID := app.ID }
          s2 [.Load projectKey appName false, .GenerateSSHKey (prefixedName newKey.Name)] := by
  simp only [addKeyInApplicationHandler, hm, hl, hrepo]
  simp [hssh]

/-- The add handler on a PGP request, once the name is accepted and the
application is loaded and not linked to a repository. -/
theorem addKey_pgp {σ : Type} (c : Collab σ) (projectKey appName consumer : String)
    (newKey : ApplicationKey) (s s1 : σ) (app : Application)
    (hm : c.MatchString newKey.Name = true)
    (hl : c.LoadByProjectKeyAndName projectKey appName false s = (.ok app, s1))
    (hrepo : app.FromRepository = "")
    (hpgp : newKey.Type_ = KeyTypePGP) :
    addKeyInApplicationHandler c projectKey appName consumer (.ok newKey) s =
      match c.GeneratePGPKeyPair (prefixedName newKey.Name) s1 with
      | (.error errGenerate, _) =>
        (.error (WrapError errGenerate "addKeyInApplicationHandler> Cannot generate pgpKey"),
          [.Load projectKey appName false, .GeneratePGPKeyPair (prefixedName newKey.Name)])
      | (.ok k, s2) =>
        insertInTransaction c projectKey consumer app
          { Name := prefixedName newKey.Name, Public := k.Public, Private := k.Private,
            KeyID := k.KeyID, Type_ := newKey.Type_, ApplicationID := app.ID }
          s2 [.Load projectKey appName false, .GeneratePGPKeyPair (prefixedName newKey.Name)] := by
  simp only [addKeyInApplicationHandler, hm, hl, hrepo]
  simp [hpgp, keyTypePGP_ne_SSH]

/-- The add handler on a request of any other type, once the name is accepted
and the application is loaded and not linked to a repository. -/
theorem addKey_other {σ : Type} (c : Collab σ) (projectKey appName consumer : String)
    (newKey : ApplicationKey) (s s1 : σ) (app : Application)
    (hm : c.MatchString newKey.Name = true)
    (hl : c.LoadByProjectKeyAndName projectKey appName false s = (.ok app, s1))
    (hrepo : app.FromRepository = "")
    (hssh : newKey.Type_ ≠ KeyTypeSSH) (hpgp : newKey.Type_ ≠ KeyTypePGP) :
    addKeyInApplicationHandler c projectKey appName consumer (.ok newKey) s =
      (.error (WrapError ErrUnknownKeyType
          ("addKeyInApplicationHandler> unknown key of type: " ++ newKey.Type_)),
        [.Load projectKey appName false]) := by
  simp only [addKeyInApplicationHandler, hm, hl, hrepo]
  simp [hssh, hpgp]

/-- The three trace properties on every run of the add handler. -/
theorem addKey_trace_discipline {σ : Type} (c : Collab σ)
    (projectKey appName consumer : String) (body : Except Error ApplicationKey) (s : σ) :
    publishAfterCommit false
        (addKeyInApplicationHandler c projectKey appName consumer body s).2 = true ∧
      mutationInTransaction false
        (addKeyInApplicationHandler c projectKey appName consumer body s).2 = true ∧
      rollbackUnlessCommitted
        (addKeyInApplicationHandler c projectKey appName consumer body s).2 = true := by
  rcases body with err | newKey
  · simp [addKeyInApplicationHandler, publishAfterCommit, mutationInTransaction,
      rollbackUnlessCommitted]
  · cases hm : c.MatchString newKey.Name
    · simp [addKeyInApplicationHandler, hm, publishAfterCommit, mutationInTransaction,
        rollbackUnlessCommitted]
    · rcases hl : c.LoadByProjectKeyAndName projectKey appName false s with ⟨err | app, s1⟩
      · simp [addKeyInApplicationHandler, hm, hl, publishAfterCommit, mutationInTransaction,
          rollbackUnlessCommitted, Action.isPublish, Action.isMutation]
      · by_cases hrepo : app.FromRepository = ""
        · by_cases hssh : newKey.Type_ = KeyTypeSSH
          · rw [addKey_ssh c projectKey appName consumer newKey s s1 app hm hl hrepo hssh]
            rcases hg : c.GenerateSSHKey (prefixedName newKey.Name) s1 with ⟨err | k, s2⟩
            · simp [publishAfterCommit, mutationInTransaction, rollbackUnlessCommitted,
                Action.isPublish, Action.isMutation]
            · exact insertInTransaction_discipline c projectKey appName consumer
                (prefixedName newKey.Name) app _ s2 _ (Or.inl rfl)
          · by_cases hpgp : newKey.Type_ = KeyTypePGP
            · rw [addKey_pgp c projectKey appName consumer newKey s s1 app hm hl hrepo hpgp]
              rcases hg : c.GeneratePGPKeyPair (prefixedName newKey.Name) s1 with ⟨err | k, s2⟩
              · simp [publishAfterCommit, mutationInTransaction, rollbackUnlessCommitted,
                  Action.isPublish, Action.isMutation]
              · exact insertInTransaction_discipline c projectKey appName consumer
                  (prefixedName newKey.Name) app _ s2 _ (Or.inr rfl)
            · rw [addKey_other c projectKey appName consumer newKey s s1 app hm hl hrepo hssh
                hpgp]
              simp [publishAfterCommit, mutationInTransaction, rollbackUnlessCommitted,
                Action.isPublish, Action.isMutation]
        · simp [addKeyInApplicationHandler, hm, hl, hrepo, publishAfterCommit,
            mutationInTransaction, rollbackUnlessCommitted, Action.isPublish, Action.isMutation]

theorem insertInTransaction_ok {σ : Type} (c : Collab σ) (projectKey consumer : String)
    (app : Application) (newKey K : ApplicationKey) (s : σ) (tr tr1 : List Action)
    (h : insertInTransaction c projectKey consumer app newKey s tr = (.ok K, tr1)) :
    ∃ t t1, c.InsertKey newKey t = (.ok K, t1) := by
  unfold insertInTransaction at h
  rcases hb : c.Begin s with ⟨_ | err, s1⟩
  · rcases hi : c.InsertKey newKey s1 with ⟨err | key1, s2⟩
    · simp [hb, hi] at h
    · rcases hc : c.Commit s2 with ⟨_ | err, s3⟩
      · simp [hb, hi, hc] at h
        exact ⟨s1, s2, by rw [hi, h.1]⟩
      · simp [hb, hi, hc] at h
  · simp [hb] at h

/-- A successful add returns the key that `InsertKey` left, and the key it
handed to `InsertKey` carried the name with the `"app-"` tag. -/
theorem addKey_ok_inserted {σ : Type} (c : Collab σ) (projectKey appName consumer : String)
    (newKey K : ApplicationKey) (s : σ) (tr : List Action)
    (h : addKeyInApplicationHandler c projectKey appName consumer (.ok newKey) s = (.ok K, tr)) :
    ∃ key t t1, c.InsertKey key t = (.ok K, t1) ∧ key.Name = prefixedName newKey.Name := by
  cases hm : c.MatchString newKey.Name
  · simp [addKeyInApplicationHandler, hm] at h
  · rcases hl : c.LoadByProjectKeyAndName projectKey appName false s with ⟨err | app, s1⟩
    · simp [addKeyInApplicationHandler, hm, hl] at h
    · by_cases hrepo : app.FromRepository = ""
      · by_cases hssh : newKey.Type_ = KeyTypeSSH
        · rw [addKey_ssh c projectKey appName consumer newKey s s1 app hm hl hrepo hssh] at h
          rcases hg : c.GenerateSSHKey (prefixedName newKey.Name) s1 with ⟨err | k, s2⟩
          · simp [hg] at h
          · simp only [hg] at h
            obtain ⟨t, t1, ht⟩ := insertInTransaction_ok c _ _ _ _ _ _ _ _ h
            exact ⟨_, t, t1, ht, rfl⟩
        · by_cases hpgp : newKey.Type_ = KeyTypePGP
          · rw [addKey_pgp c projectKey appName consumer newKey s s1 app hm hl hrepo hpgp] at h
            rcases hg : c.GeneratePGPKeyPair (prefixedName newKey.Name) s1 with ⟨err | k, s2⟩
            · simp [hg] at h
            · simp only [hg] at h
              obtain ⟨t, t1, ht⟩ := insertInTransaction_ok c _ _ _ _ _ _ _ _ h
              exact ⟨_, t, t1, ht, rfl⟩
          · rw [addKey_other c projectKey appName consumer newKey s s1 app hm hl hrepo hssh
              hpgp] at h
            simp at h
      · simp [addKeyInApplicationHandler, hm, hl, hrepo] at h

theorem tagged_ne_empty (name : String) : "app-" ++ name ≠ "" := by
  intro h
  have h1 := congrArg String.length h
  simp [String.length_append] at h1
  have h2 : "app-".length = 4 := by decide
  omega

/-! ## Repository-linked applications -/

/-- C1 (as amended): on an application whose `FromRepository` is non-empty,
`deleteKeyInApplicationHandler` fails with `ErrForbidden` for every requested
name, and `addKeyInApplicationHandler` fails with `ErrForbidden` for every
request whose name matches the name pattern (whatever its type) and with
`ErrInvalidKeyPattern`, before the application is loaded, when the name
violates the pattern; in every case the only call made is the load, so no
transaction is opened, nothing is inserted or deleted, no event published. -/
theorem repository_linked_frozen {σ : Type} (c : Collab σ)
    (projectKey appName keyName consumer : String) (newKey : ApplicationKey)
    (s sd sa : σ) (appD appA : Application)
    (hloadD : c.LoadByProjectKeyAndName projectKey appName true s = (.ok appD, sd))
    (hloadA : c.LoadByProjectKeyAndName projectKey appName false s = (.ok appA, sa))
    (hrepoD : appD.FromRepository ≠ "") (hrepoA : appA.FromRepository ≠ "") :
    deleteKeyInApplicationHandler c projectKey appName keyName consumer s =
        (.error (WithStack ErrForbidden), [.Load projectKey appName true]) ∧
      addKeyInApplicationHandler c projectKey appName consumer (.ok newKey) s =
        (if c.MatchString newKey.Name then
          (.error (WithStack ErrForbidden), [.Load projectKey appName false])
        else
          (.error (WrapError ErrInvalidKeyPattern
              ("addKeyInApplicationHandler: Key name " ++ newKey.Name ++
                " do not respect pattern " ++ c.NamePattern)), [])) := by
  constructor
  · simp [deleteKeyInApplicationHandler, hloadD, hrepoD]
  · cases hm : c.MatchString newKey.Name <;>
      simp [addKeyInApplicationHandler, hloadA, hrepoA, hm]

/-- C1, a concrete instance: a repository-linked application, a delete and an
add with a name that matches the pattern. -/
theorem repository_linked_frozen_witness :
    deleteKeyInApplicationHandler (simpleWorld (linkedApp [])) "myproj" "myapp" "app-deploy"
          "alice" () =
        (.error (WithStack ErrForbidden), [.Load "myproj" "myapp" true]) ∧
      addKeyInApplicationHandler (simpleWorld (linkedApp [])) "myproj" "myapp" "alice"
          (.ok (request "deploy" KeyTypeSSH)) () =
        (.error (WithStack ErrForbidden), [.Load "myproj" "myapp" false]) :=
  repository_linked_frozen (simpleWorld (linkedApp [])) "myproj" "myapp" "app-deploy" "alice"
    (request "deploy" KeyTypeSSH) () () () (linkedApp []) (linkedApp []) rfl rfl
    (by decide) (by decide)

/-- C1 as stated fails: on a repository-linked application, an add whose name
violates the name pattern fails with `ErrInvalidKeyPattern`, not with
`ErrForbidden`, and the application is not even loaded. -/
theorem add_invalid_name_on_linked_app_not_forbidden :
    (linkedApp []).FromRepository ≠ "" ∧
      NamePatternRegex "not a name" = false ∧
      addKeyInApplicationHandler (simpleWorld (linkedApp [])) "myproj" "myapp" "alice"
          (.ok (request "not a name" KeyTypeSSH)) () =
        (.error (WrapError ErrInvalidKeyPattern
          "addKeyInApplicationHandler: Key name not a name do not respect pattern ^[a-zA-Z0-9._-]+$"),
          []) ∧
      failsWith (addKeyInApplicationHandler (simpleWorld (linkedApp [])) "myproj" "myapp" "alice"
          (.ok (request "not a name" KeyTypeSSH)) ()).1 .ErrForbidden = false := by
  refine ⟨by decide, by decide, ?_, ?_⟩ <;> rfl

/-! ## Deleting a key -/

/-- C2: on a loaded application that is not linked to a repository, when the
transaction opens and no key of the loaded collection has the requested name,
`deleteKeyInApplicationHandler` fails with `ErrKeyNotFound`; the calls it
made are the load, the begin and the deferred rollback: no `DeleteKey`, no
commit, no event. -/
theorem deleteKey_absent_name {σ : Type} (c : Collab σ)
    (projectKey appName keyName consumer : String) (s s1 s2 : σ) (app : Application)
    (hload : c.LoadByProjectKeyAndName projectKey appName true s = (.ok app, s1))
    (hrepo : app.FromRepository = "")
    (hbegin : c.Begin s1 = (none, s2))
    (habsent : ∀ k ∈ app.Keys, k.Name ≠ keyName) :
    deleteKeyInApplicationHandler c projectKey appName keyName consumer s =
      (.error (WrapError ErrKeyNotFound
          ("deleteKeyInApplicationHandler> key " ++ keyName ++
            " not found on application " ++ app.Name)),
        [.Load projectKey appName true, .Begin true, .Rollback]) := by
  have hnil : matching keyName app.Keys = [] := by
    simpa [matching, List.filter_eq_nil_iff] using habsent
  simp [deleteKeyInApplicationHandler, hload, hrepo, hbegin, deleteKeyLoop_eq, hnil,
    deleteCalls, ApplicationKey.zero]

/-- C2, a concrete instance: deleting `app-other` where only `app-deploy`
exists. -/
theorem deleteKey_absent_name_witness :
    failsWith (deleteKeyInApplicationHandler (simpleWorld (localApp [sshKey "app-deploy" "p"]))
        "myproj" "myapp" "app-other" "alice" ()).1 .ErrKeyNotFound = true ∧
      (deleteKeyInApplicationHandler (simpleWorld (localApp [sshKey "app-deploy" "p"]))
        "myproj" "myapp" "app-other" "alice" ()).2 =
        [.Load "myproj" "myapp" true, .Begin true, .Rollback] := by
  have h := deleteKey_absent_name (simpleWorld (localApp [sshKey "app-deploy" "p"]))
    "myproj" "myapp" "app-other" "alice" () () () (localApp [sshKey "app-deploy" "p"])
    rfl rfl rfl (by decide)
  rw [h]
  exact ⟨rfl, rfl⟩

/-- C3 (as amended): on a loaded application that is not linked to a repository,
with the transaction open, for a requested name that some key of the loaded
collection carries: when the requested name is NOT EMPTY and every
`DeleteKey` call and the commit succeed, the handler succeeds, with one commit
and one key-deleted event that carries a key of the collection whose name is
the requested name; when a `DeleteKey` call fails (for every requested name,
the empty one included), the handler returns that error, wrapped, with no
commit and no event. -/
theorem deleteKey_present_name {σ : Type} (c : Collab σ)
    (projectKey appName keyName consumer : String) (s s1 s2 : σ) (app : Application)
    (hload : c.LoadByProjectKeyAndName projectKey appName true s = (.ok app, s1))
    (hrepo : app.FromRepository = "")
    (hbegin : c.Begin s1 = (none, s2))
    (hmem : ∃ k ∈ app.Keys, k.Name = keyName) :
    (keyName ≠ "" →
      ∀ s3 n, deleteCalls c app.ID keyName (matching keyName app.Keys).length s2 = (none, s3, n) →
      ∀ s4, c.Commit s3 = (none, s4) →
      ∃ K, K ∈ app.Keys ∧ K.Name = keyName ∧
        deleteKeyInApplicationHandler c projectKey appName keyName consumer s =
          (.ok (),
            [.Load projectKey appName true, .Begin true] ++
              List.replicate n (.DeleteKey app.ID keyName) ++
              [.Commit true, .PublishApplicationKeyDelete projectKey app K consumer,
                .Rollback])) ∧
      (∀ err s3 n,
        deleteCalls c app.ID keyName (matching keyName app.Keys).length s2 = (some err, s3, n) →
        deleteKeyInApplicationHandler c projectKey appName keyName consumer s =
          (.error (WrapError err ("cannot delete key " ++ keyName)),
            [.Load projectKey appName true, .Begin true] ++
              List.replicate n (.DeleteKey app.ID keyName) ++ [.Rollback])) := by
  rw [deleteKeyInApplicationHandler_eq c projectKey appName keyName consumer s s1 s2 app
    hload hrepo hbegin]
  constructor
  · intro hname s3 n hdc s4 hcommit
    obtain ⟨K, hK⟩ := matching_getLast_of_mem hmem
    obtain ⟨hKmem, hKname⟩ := matching_getLast hK
    have hn := deleteCalls_count c app.ID keyName (matching keyName app.Keys).length s2
      (by rw [hdc])
    rw [hdc] at hn
    simp only at hn
    refine ⟨K, hKmem, hKname, ?_⟩
    simp [hdc, hK, hKname, hname, hcommit, hn]
  · intro err s3 n hdc
    simp [hdc]

/-- C3, two concrete instances: deleting the one key `app-deploy` where every
storage call succeeds, and where `DeleteKey` fails. -/
theorem deleteKey_present_name_witness :
    deleteKeyInApplicationHandler (simpleWorld (localApp [sshKey "app-deploy" "p"]))
        "myproj" "myapp" "app-deploy" "alice" () =
      (.ok (),
        [.Load "myproj" "myapp" true, .Begin true, .DeleteKey 7 "app-deploy", .Commit true,
          .PublishApplicationKeyDelete "myproj" (localApp [sshKey "app-deploy" "p"])
            (sshKey "app-deploy" "p") "alice",
          .Rollback]) ∧
    deleteKeyInApplicationHandler (failingDeleteWorld (localApp [sshKey "app-deploy" "p"]))
        "myproj" "myapp" "app-deploy" "alice" () =
      (.error (WrapError storageFault "cannot delete key app-deploy"),
        [.Load "myproj" "myapp" true, .Begin true, .DeleteKey 7 "app-deploy", .Rollback]) := by
  constructor
  · obtain ⟨K, hmem, -, h⟩ :=
      (deleteKey_present_name (simpleWorld (localApp [sshKey "app-deploy" "p"]))
        "myproj" "myapp" "app-deploy" "alice" () () () (localApp [sshKey "app-deploy" "p"])
        rfl rfl rfl ⟨sshKey "app-deploy" "p", by decide, rfl⟩).1 (by decide) () 1 rfl () rfl
    have hK : K = sshKey "app-deploy" "p" := by simpa [localApp] using hmem
    rw [h, hK]
    rfl
  · exact (deleteKey_present_name (failingDeleteWorld (localApp [sshKey "app-deploy" "p"]))
      "myproj" "myapp" "app-deploy" "alice" () () () (localApp [sshKey "app-deploy" "p"])
      rfl rfl rfl ⟨sshKey "app-deploy" "p", by decide, rfl⟩).2 storageFault () 1 rfl

/-- C3 as stated fails for the empty name: with a key of empty name in the
collection and every storage call succeeding, deleting the name `""` issues
the `DeleteKey` and then fails with `ErrKeyNotFound`, without commit or event. -/
theorem deleteKey_empty_name_not_found :
    (sshKey "" "p") ∈ (localApp [sshKey "" "p"]).Keys ∧ (sshKey "" "p").Name = "" ∧
      deleteKeyInApplicationHandler (simpleWorld (localApp [sshKey "" "p"]))
          "myproj" "myapp" "" "alice" () =
        (.error (WrapError ErrKeyNotFound
          "deleteKeyInApplicationHandler> key  not found on application myapp"),
          [.Load "myproj" "myapp" true, .Begin true, .DeleteKey 7 "", .Rollback]) := by
  refine ⟨by decide, rfl, rfl⟩

/-- C8 (as amended): on a loaded application that is not linked to a
repository, whose collection has two or more entries with the requested
non-empty name, when the begin, every `DeleteKey` call and the commit succeed,
the handler issues one `DeleteKey` per matching entry inside the transaction,
the key-deleted event carries the LAST matching entry of the collection, and
the handler reports success. -/
theorem deleteKey_duplicate_names {σ : Type} (c : Collab σ)
    (projectKey appName keyName consumer : String) (s s1 s2 s3 s4 : σ) (n : Nat)
    (app : Application)
    (hload : c.LoadByProjectKeyAndName projectKey appName true s = (.ok app, s1))
    (hrepo : app.FromRepository = "")
    (hbegin : c.Begin s1 = (none, s2))
    (hname : keyName ≠ "")
    (hdup : 2 ≤ (matching keyName app.Keys).length)
    (hdelete : deleteCalls c app.ID keyName (matching keyName app.Keys).length s2 = (none, s3, n))
    (hcommit : c.Commit s3 = (none, s4)) :
    n = (matching keyName app.Keys).length ∧
      ∃ K, (matching keyName app.Keys).getLast? = some K ∧
        deleteKeyInApplicationHandler c projectKey appName keyName consumer s =
          (.ok (),
            [.Load projectKey appName true, .Begin true] ++
              List.replicate n (.DeleteKey app.ID keyName) ++
              [.Commit true, .PublishApplicationKeyDelete projectKey app K consumer,
                .Rollback]) := by
  have hn := deleteCalls_count c app.ID keyName (matching keyName app.Keys).length s2
    (by rw [hdelete])
  rw [hdelete] at hn
  simp only at hn
  cases hK : (matching keyName app.Keys).getLast? with
  | none =>
    rw [List.getLast?_eq_none_iff] at hK
    simp [hK] at hdup
  | some K =>
    obtain ⟨-, hKname⟩ := matching_getLast hK
    refine ⟨hn, K, rfl, ?_⟩
    rw [deleteKeyInApplicationHandler_eq c projectKey appName keyName consumer s s1 s2 app
      hload hrepo hbegin]
    simp [hdelete, hK, hKname, hname, hcommit, hn]

/-- C8, a concrete instance: three keys named `app-b` give three `DeleteKey`
calls, and the event carries the last of the three. -/
theorem deleteKey_duplicate_names_witness :
    (3 : Nat) = (matching "app-b" triplicateApp.Keys).length ∧
      ∃ K, (matching "app-b" triplicateApp.Keys).getLast? = some K ∧
        deleteKeyInApplicationHandler (simpleWorld triplicateApp) "myproj" "myapp" "app-b"
            "alice" () =
          (.ok (),
            [.Load "myproj" "myapp" true, .Begin true] ++
              List.replicate 3 (.DeleteKey triplicateApp.ID "app-b") ++
              [.Commit true, .PublishApplicationKeyDelete "myproj" triplicateApp K "alice",
                .Rollback]) :=
  deleteKey_duplicate_names (simpleWorld triplicateApp) "myproj" "myapp" "app-b" "alice"
    () () () () () 3 triplicateApp rfl rfl rfl (by decide) (by decide) rfl rfl

/-- C8 as stated fails: with two keys named `app-a` and every storage call
succeeding, the handler issues two `DeleteKey` calls, not one, and the event
carries the second entry, not the first matching one. -/
theorem deleteKey_duplicate_names_not_first :
    deleteKeyInApplicationHandler (simpleWorld duplicateApp) "myproj" "myapp" "app-a"
          "alice" () =
        (.ok (),
          [.Load "myproj" "myapp" true, .Begin true, .DeleteKey 7 "app-a", .DeleteKey 7 "app-a",
            .Commit true,
            .PublishApplicationKeyDelete "myproj" duplicateApp (sshKey "app-a" "second") "alice",
            .Rollback]) ∧
      (deleteKeyInApplicationHandler (simpleWorld duplicateApp) "myproj" "myapp" "app-a"
          "alice" ()).2.count (.DeleteKey 7 "app-a") = 2 ∧
      (matching "app-a" duplicateApp.Keys).head? = some (sshKey "app-a" "first") ∧
      sshKey "app-a" "first" ≠ sshKey "app-a" "second" := by
  refine ⟨rfl, by decide, by decide, by decide⟩

/-! ## Adding a key -/

/-- C4: for a request whose name matches the name pattern and whose type is
SSH or PGP, on a loaded application that is not linked to a repository, if the
generator of that type, the begin, the insert of the generated key (which
leaves that key as it received it) and the commit succeed, the add handler
returns a key `K` whose name is the request's name with `"app-"` in front
exactly when the request's name does not start with it, whose type is the
requested type, whose owner is the loaded application and whose public and
private parts are the generator's output for that name; the calls are the
load, one generator call, the begin, one insert of `K`, the commit, one
key-added event carrying `K`, and the deferred rollback. -/
theorem addKey_success {σ : Type} (c : Collab σ) (projectKey appName consumer : String)
    (newKey : ApplicationKey) (k : Key) (s s1 s2 s3 s4 s5 : σ) (app : Application)
    (hpattern : c.MatchString newKey.Name = true)
    (hload : c.LoadByProjectKeyAndName projectKey appName false s = (.ok app, s1))
    (hrepo : app.FromRepository = "")
    (hgen : (newKey.Type_ = KeyTypeSSH ∧
          c.GenerateSSHKey
            (if HasPrefix newKey.Name "app-" then newKey.Name else "app-" ++ newKey.Name) s1 =
            (.ok k, s2)) ∨
        (newKey.Type_ = KeyTypePGP ∧
          c.GeneratePGPKeyPair
            (if HasPrefix newKey.Name "app-" then newKey.Name else "app-" ++ newKey.Name) s1 =
            (.ok k, s2)))
    (hbegin : c.Begin s2 = (none, s3))
    (hinsert : c.InsertKey
        { Name := if HasPrefix newKey.Name "app-" then newKey.Name else "app-" ++ newKey.Name,
          Public := k.Public, Private := k.Private,
          KeyID := if newKey.Type_ = KeyTypeSSH then newKey.KeyID else k.KeyID,
          Type_ := newKey.Type_, ApplicationID := app.ID } s3 =
      (.ok
        { Name := if HasPrefix newKey.Name "app-" then newKey.Name else "app-" ++ newKey.Name,
          Public := k.Public, Private := k.Private,
          KeyID := if newKey.Type_ = KeyTypeSSH then newKey.KeyID else k.KeyID,
          Type_ := newKey.Type_, ApplicationID := app.ID }, s4))
    (hcommit : c.Commit s4 = (none, s5)) :
    ∃ K : ApplicationKey,
      K.Name = (if HasPrefix newKey.Name "app-" then newKey.Name else "app-" ++ newKey.Name) ∧
      K.Type_ = newKey.Type_ ∧ K.ApplicationID = app.ID ∧
      K.Public = k.Public ∧ K.Private = k.Private ∧
      addKeyInApplicationHandler c projectKey appName consumer (.ok newKey) s =
        (.ok K,
          [.Load projectKey appName false,
            (if newKey.Type_ = KeyTypeSSH then
              .GenerateSSHKey
                (if HasPrefix newKey.Name "app-" then newKey.Name else "app-" ++ newKey.Name)
            else
              .GeneratePGPKeyPair
                (if HasPrefix newKey.Name "app-" then newKey.Name else "app-" ++ newKey.Name)),
            .Begin true, .InsertKey K, .Commit true,
            .PublishApplicationKeyAdd projectKey app K consumer, .Rollback]) := by
  rw [← prefixedName_eq newKey.Name] at hgen hinsert ⊢
  rcases hgen with ⟨hssh, hg⟩ | ⟨hpgp, hg⟩
  · refine ⟨{ Name := prefixedName newKey.Name, Public := k.Public, Private := k.Private,
              KeyID := newKey.KeyID, Type_ := newKey.Type_, ApplicationID := app.ID },
      rfl, rfl, rfl, rfl, rfl, ?_⟩
    rw [if_pos hssh] at hinsert
    rw [addKey_ssh c projectKey appName consumer newKey s s1 app hpattern hload hrepo hssh]
    simp only [hg, insertInTransaction, hbegin, hinsert, hcommit]
    simp [hssh]
  · have hssh : ¬ newKey.Type_ = KeyTypeSSH := by
      rw [hpgp]
      exact keyTypePGP_ne_SSH
    refine ⟨{ Name := prefixedName newKey.Name, Public := k.Public, Private := k.Private,
              KeyID := k.KeyID, Type_ := newKey.Type_, ApplicationID := app.ID },
      rfl, rfl, rfl, rfl, rfl, ?_⟩
    rw [if_neg hssh] at hinsert
    rw [addKey_pgp c projectKey appName consumer newKey s s1 app hpattern hload hrepo hpgp]
    simp only [hg, insertInTransaction, hbegin, hinsert, hcommit]
    simp [hpgp, keyTypePGP_ne_SSH]

/-- C4, two concrete instances: the spec's scenario, an SSH key named `deploy`
on an application without keys, and a PGP key whose requested name already
starts with `app-`, in a world whose state records the inserted rows. -/
theorem addKey_success_witness :
    (∃ K : ApplicationKey,
      K.Name = "app-deploy" ∧ K.Type_ = "ssh" ∧ K.ApplicationID = 7 ∧
      K.Public = "ssh-pub" ∧ K.Private = "ssh-priv" ∧
      addKeyInApplicationHandler (simpleWorld (localApp [])) "myproj" "myapp" "alice"
          (.ok (request "deploy" KeyTypeSSH)) () =
        (.ok K,
          [.Load "myproj" "myapp" false, .GenerateSSHKey "app-deploy",
            .Begin true, .InsertKey K, .Commit true,
            .PublishApplicationKeyAdd "myproj" (localApp []) K "alice", .Rollback])) ∧
    (∃ K : ApplicationKey,
      K.Name = "app-sign" ∧ K.Type_ = "pgp" ∧ K.ApplicationID = 7 ∧
      K.Public = "pgp-pub" ∧ K.Private = "pgp-priv" ∧
      addKeyInApplicationHandler (recordingWorld (localApp [])) "myproj" "myapp" "alice"
          (.ok (request "app-sign" KeyTypePGP)) [] =
        (.ok K,
          [.Load "myproj" "myapp" false, .GeneratePGPKeyPair "app-sign",
            .Begin true, .InsertKey K, .Commit true,
            .PublishApplicationKeyAdd "myproj" (localApp []) K "alice", .Rollback])) :=
  ⟨addKey_success (simpleWorld (localApp [])) "myproj" "myapp" "alice"
      (request "deploy" KeyTypeSSH) ⟨"ssh-pub", "ssh-priv", ""⟩ () () () () () () (localApp [])
      (by decide) rfl rfl (Or.inl ⟨rfl, rfl⟩) rfl rfl rfl,
    addKey_success (recordingWorld (localApp [])) "myproj" "myapp" "alice"
      (request "app-sign" KeyTypePGP) ⟨"pgp-pub", "pgp-priv", "pgp-id"⟩ [] [] [] []
      [{ Name := "app-sign", Public := "pgp-pub", Private := "pgp-priv", KeyID := "pgp-id",
         Type_ := "pgp", ApplicationID := 7 }]
      [{ Name := "app-sign", Public := "pgp-pub", Private := "pgp-priv", KeyID := "pgp-id",
         Type_ := "pgp", ApplicationID := 7 }]
      (localApp []) (by decide) rfl rfl (Or.inr ⟨rfl, rfl⟩) rfl rfl rfl⟩

/-- C5: the name normalisation of the add handler is idempotent, leaves a
name that starts with `"app-"` unchanged and puts `"app-"` in front of any
other, so it absorbs the tag; `app-foo` and `foo` both give `app-foo`. -/
theorem prefixedName_idempotent (name : String) :
    prefixedName (prefixedName name) = prefixedName name ∧
      prefixedName name = (if HasPrefix name "app-" then name else "app-" ++ name) ∧
      prefixedName ("app-" ++ name) = "app-" ++ name ∧
      prefixedName "app-foo" = "app-foo" ∧ prefixedName "foo" = "app-foo" := by
  refine ⟨?_, prefixedName_eq name, ?_, by decide, by decide⟩
  · rw [prefixedName_eq (prefixedName name), hasPrefix_prefixedName]
    simp
  · rw [prefixedName_eq, hasPrefix_append]
    simp

/-- C6: for a request whose name matches the name pattern and whose type is
neither SSH nor PGP, on a loaded application that is not linked to a
repository, the add handler fails with `ErrUnknownKeyType`; the only call made
is the load: no generator call, no begin, no insert, no event. -/
theorem addKey_unknown_type {σ : Type} (c : Collab σ) (projectKey appName consumer : String)
    (newKey : ApplicationKey) (s s1 : σ) (app : Application)
    (hpattern : c.MatchString newKey.Name = true)
    (hload : c.LoadByProjectKeyAndName projectKey appName false s = (.ok app, s1))
    (hrepo : app.FromRepository = "")
    (hssh : newKey.Type_ ≠ KeyTypeSSH) (hpgp : newKey.Type_ ≠ KeyTypePGP) :
    addKeyInApplicationHandler c projectKey appName consumer (.ok newKey) s =
        (.error (WrapError ErrUnknownKeyType
            ("addKeyInApplicationHandler> unknown key of type: " ++ newKey.Type_)),
          [.Load projectKey appName false]) ∧
      failsWith (addKeyInApplicationHandler c projectKey appName consumer (.ok newKey) s).1
        .ErrUnknownKeyType = true := by
  rw [addKey_other c projectKey appName consumer newKey s s1 app hpattern hload hrepo hssh hpgp]
  exact ⟨rfl, rfl⟩

/-- C6, two concrete instances: the type `rsa-unsupported` and the empty type. -/
theorem addKey_unknown_type_witness :
    (addKeyInApplicationHandler (simpleWorld (localApp [])) "myproj" "myapp" "alice"
        (.ok (request "deploy" "rsa-unsupported")) () =
      (.error (WrapError ErrUnknownKeyType
          "addKeyInApplicationHandler> unknown key of type: rsa-unsupported"),
        [.Load "myproj" "myapp" false])) ∧
    (addKeyInApplicationHandler (simpleWorld (localApp [])) "myproj" "myapp" "alice"
        (.ok (request "deploy" "")) ()).2 = [.Load "myproj" "myapp" false] :=
  ⟨(addKey_unknown_type (simpleWorld (localApp [])) "myproj" "myapp" "alice"
      (request "deploy" "rsa-unsupported") () () (localApp []) (by decide) rfl rfl
      (by decide) (by decide)).1,
    congrArg Prod.snd (addKey_unknown_type (simpleWorld (localApp [])) "myproj" "myapp" "alice"
      (request "deploy" "") () () (localApp []) (by decide) rfl rfl
      (by decide) (by decide)).1⟩

/-- C7, the code at the failing input: an SSH request whose body carries the
`key_id` `caller-id` succeeds, and the key inserted, published and returned
carries that `key_id` instead of an empty one. -/
theorem addKey_ssh_keeps_request_key_id :
    addKeyInApplicationHandler (simpleWorld (localApp [])) "myproj" "myapp" "alice"
        (.ok sshRequestWithKeyID) () =
      (.ok { Name := "app-deploy", Public := "ssh-pub", Private := "ssh-priv",
             KeyID := "caller-id", Type_ := "ssh", ApplicationID := 7 },
        [.Load "myproj" "myapp" false, .GenerateSSHKey "app-deploy", .Begin true,
          .InsertKey { Name := "app-deploy", Public := "ssh-pub", Private := "ssh-priv",
                       KeyID := "caller-id", Type_ := "ssh", ApplicationID := 7 },
          .Commit true,
          .PublishApplicationKeyAdd "myproj" (localApp [])
            { Name := "app-deploy", Public := "ssh-pub", Private := "ssh-priv",
              KeyID := "caller-id", Type_ := "ssh", ApplicationID := 7 } "alice",
          .Rollback]) := by
  rfl

/-! ## Transactions and events -/

/-- C9: on every run of the delete handler and of the add handler, whatever
the collaborators answer, an event is published only after a successful
commit, every `InsertKey` and `DeleteKey` is issued while the transaction is
open, and a run that opened a transaction without a successful commit ends
with the rollback. -/
theorem transaction_discipline {σ : Type} (c : Collab σ)
    (projectKey appName keyName consumer : String) (body : Except Error ApplicationKey)
    (s : σ) :
    (publishAfterCommit false
          (deleteKeyInApplicationHandler c projectKey appName keyName consumer s).2 = true ∧
        mutationInTransaction false
          (deleteKeyInApplicationHandler c projectKey appName keyName consumer s).2 = true ∧
        rollbackUnlessCommitted
          (deleteKeyInApplicationHandler c projectKey appName keyName consumer s).2 = true) ∧
      (publishAfterCommit false
          (addKeyInApplicationHandler c projectKey appName consumer body s).2 = true ∧
        mutationInTransaction false
          (addKeyInApplicationHandler c projectKey appName consumer body s).2 = true ∧
        rollbackUnlessCommitted
          (addKeyInApplicationHandler c projectKey appName consumer body s).2 = true) :=
  ⟨deleteKey_trace_discipline c projectKey appName keyName consumer s,
    addKey_trace_discipline c projectKey appName consumer body s⟩

/-! ## Delete matches the stored name exactly -/

/-- C10: the delete handler compares the requested name with the stored
names as they are, without the `"app-"` normalisation of the add handler.
Let `K` be the key returned by a successful add whose requested name does not
start with `"app-"` (the store leaving names as it receives them), and let the
loaded application, not linked to a repository, have `K` as its only key.
Then deleting the name as it was requested fails with `ErrKeyNotFound` and
issues no `DeleteKey`, while deleting `"app-"` followed by that name succeeds
when the storage calls succeed. -/
theorem deleteKey_exact_name {σ : Type} (c : Collab σ) (projectKey appName consumer : String)
    (newKey K : ApplicationKey) (tr : List Action) (s0 s s1 s2 s3 s4 : σ) (app : Application)
    (hnotag : HasPrefix newKey.Name "app-" = false)
    (hadd : addKeyInApplicationHandler c projectKey appName consumer (.ok newKey) s0 =
      (.ok K, tr))
    (hkeep : ∀ key key1 t t1, c.InsertKey key t = (.ok key1, t1) → key1.Name = key.Name)
    (hload : c.LoadByProjectKeyAndName projectKey appName true s = (.ok app, s1))
    (hrepo : app.FromRepository = "")
    (hkeys : app.Keys = [K])
    (hbegin : c.Begin s1 = (none, s2))
    (hdelete : c.DeleteKey app.ID ("app-" ++ newKey.Name) s2 = (none, s3))
    (hcommit : c.Commit s3 = (none, s4)) :
    deleteKeyInApplicationHandler c projectKey appName newKey.Name consumer s =
        (.error (WrapError ErrKeyNotFound
            ("deleteKeyInApplicationHandler> key " ++ newKey.Name ++
              " not found on application " ++ app.Name)),
          [.Load projectKey appName true, .Begin true, .Rollback]) ∧
      deleteKeyInApplicationHandler c projectKey appName ("app-" ++ newKey.Name) consumer s =
        (.ok (),
          [.Load projectKey appName true, .Begin true,
            .DeleteKey app.ID ("app-" ++ newKey.Name), .Commit true,
            .PublishApplicationKeyDelete projectKey app K consumer, .Rollback]) := by
  obtain ⟨key, t, t1, hins, hkey⟩ :=
    addKey_ok_inserted c projectKey appName consumer newKey K s0 tr hadd
  have hK : K.Name = "app-" ++ newKey.Name := by
    rw [hkeep key K t t1 hins, hkey, prefixedName_eq, hnotag]
    simp
  have hne : ¬ ("app-" ++ newKey.Name = newKey.Name) := append_ne_self newKey.Name
  have hne2 : ¬ ("app-" ++ newKey.Name = "") := tagged_ne_empty newKey.Name
  constructor
  · rw [deleteKeyInApplicationHandler_eq c projectKey appName newKey.Name consumer s s1 s2 app
      hload hrepo hbegin]
    simp [hkeys, matching, hK, hne, deleteCalls, ApplicationKey.zero]
  · rw [deleteKeyInApplicationHandler_eq c projectKey appName ("app-" ++ newKey.Name) consumer
      s s1 s2 app hload hrepo hbegin]
    simp [hkeys, matching, hK, hne2, deleteCalls, hdelete, hcommit]

/-- C10, a concrete instance: after the add of the SSH key `deploy`, deleting
`deploy` fails with `ErrKeyNotFound` and deleting `app-deploy` succeeds. -/
theorem deleteKey_exact_name_witness :
    deleteKeyInApplicationHandler (simpleWorld (localApp [deployKey])) "myproj" "myapp"
          "deploy" "alice" () =
        (.error (WrapError ErrKeyNotFound
            "deleteKeyInApplicationHandler> key deploy not found on application myapp"),
          [.Load "myproj" "myapp" true, .Begin true, .Rollback]) ∧
      deleteKeyInApplicationHandler (simpleWorld (localApp [deployKey])) "myproj" "myapp"
          "app-deploy" "alice" () =
        (.ok (),
          [.Load "myproj" "myapp" true, .Begin true, .DeleteKey 7 "app-deploy", .Commit true,
            .PublishApplicationKeyDelete "myproj" (localApp [deployKey]) deployKey "alice",
            .Rollback]) :=
  deleteKey_exact_name (simpleWorld (localApp [deployKey])) "myproj" "myapp" "alice"
    (request "deploy" KeyTypeSSH) deployKey
    [.Load "myproj" "myapp" false, .GenerateSSHKey "app-deploy", .Begin true,
      .InsertKey deployKey, .Commit true,
      .PublishApplicationKeyAdd "myproj" (localApp [deployKey]) deployKey "alice", .Rollback]
    () () () () () () (localApp [deployKey])
    (by decide) rfl (fun _ _ _ _ h => by cases h; rfl) rfl rfl rfl rfl rfl rfl

end Cds
